import Mathlib

/-
Verification development for the document-uploader script (excel.py).

The script reads a spreadsheet of document links, downloads each referenced
file, uploads the bytes to object storage, and inserts a catalog record.
Pure string processing (the sharing-link resolver, the file-type classifier)
is embedded over List Char so that Python string-method semantics
(str.split, str.rfind, pathlib suffix, str.lower, str.lstrip) are modelled
exactly.  Network responses, the clock, random identifiers and filesystem
facts are supplied by explicit world records; every external call the code
makes is recorded in a trace.
-/

/-! ### Python string primitives over List Char -/

/-- Does the second list start with the first (Python startswith, used by
occurrence search)? -/
def leadsWith : List Char → List Char → Bool
  | [], _ => true
  | _ :: _, [] => false
  | c :: cs, d :: ds => c = d && leadsWith cs ds

/-- First occurrence of sep in s: returns the text before the occurrence and
the text after it, or none when sep does not occur.  Models the search that
Python str.split performs for its first separator. -/
def splitFirst (sep : List Char) : List Char → Option (List Char × List Char)
  | [] => none
  | c :: cs =>
    if leadsWith sep (c :: cs) then some ([], List.drop sep.length (c :: cs))
    else (splitFirst sep cs).map fun pr => (c :: pr.1, pr.2)

/-- Python substring containment: sep in s. -/
def hasSub (sep s : List Char) : Bool := (splitFirst sep s).isSome

/-- The text before the first occurrence of sep, or all of s when sep does
not occur: Python s.split(sep)[0]. -/
def chunkBefore (sep s : List Char) : List Char :=
  match splitFirst sep s with
  | none => s
  | some pr => pr.1

/-- The text after the first occurrence of sep (s itself when sep does not
occur; the split below is only reached under a containment guard). -/
def afterFirstOcc (sep s : List Char) : List Char :=
  match splitFirst sep s with
  | none => s
  | some pr => pr.2

/-- Python s.split(sep)[1] when sep occurs in s: the text strictly between
the first occurrence and the second occurrence (or the end of s). -/
def pySplitGet1 (sep s : List Char) : List Char :=
  chunkBefore sep (afterFirstOcc sep s)

/-- Python s.split(c)[0] for a single-character separator. -/
def takeUntil (c : Char) (l : List Char) : List Char := l.takeWhile (· ≠ c)

/-- Split on a single character, Python-style: n separators give n+1 chunks. -/
def splitOnChar (c : Char) : List Char → List (List Char)
  | [] => [[]]
  | d :: rest =>
    if d = c then [] :: splitOnChar c rest
    else
      match splitOnChar c rest with
      | [] => [[d]]
      | h :: t => (d :: h) :: t

/-- Python name.rfind(chr): index of the last occurrence, counted from the
front, or none. -/
def rfindDot : List Char → Option Nat
  | [] => none
  | c :: rest =>
    match rfindDot rest with
    | some i => some (i + 1)
    | none => if c = '.' then some 0 else none

/-- The text after the last dot of a name, or none when the name has no dot.
Spec-side formulation used to state the classifier claims. -/
def afterLastDot : List Char → Option (List Char)
  | [] => none
  | c :: rest =>
    match afterLastDot rest with
    | some s => some s
    | none => if c = '.' then some rest else none

/-- Python str.lower, character by character. -/
def toLowerL (l : List Char) : List Char := l.map Char.toLower

/-- Python str.lstrip(chr) for the dot character. -/
def lstripDot (l : List Char) : List Char := l.dropWhile (· = '.')

/-! ### get_file_type (excel.py lines 187-201) -/

/-- pathlib keeps a path component unless it is empty or a single dot. -/
def keepComponent (comp : List Char) : Bool :=
  !comp.isEmpty && !(comp = ['.'] : Bool)

/-- pathlib PurePosixPath(...).name: the final path component, with empty
and single-dot components dropped. -/
def pathlibName (p : List Char) : List Char :=
  (((splitOnChar '/' p).filter keepComponent).getLast?).getD []

/-- pathlib PurePosixPath(...).suffix: name[i:] where i = name.rfind(dot),
provided 0 < i < len(name) - 1, else the empty string. -/
def pySuffix (name : List Char) : List Char :=
  match rfindDot name with
  | none => []
  | some i => if 0 < i ∧ i < name.length - 1 then name.drop i else []

/-- The extension-standardisation table of get_file_type. -/
def mapExt (ext : List Char) : List Char :=
  if ext = "pdf".toList then "pdf".toList
  else if ext = "doc".toList ∨ ext = "docx".toList then "docx".toList
  else if ext = "ppt".toList ∨ ext = "pptx".toList then "pptx".toList
  else if ext = "xls".toList ∨ ext = "xlsx".toList then "xlsx".toList
  else ext

/-- get_file_type: ext = Path(filename).suffix.lower().lstrip(dot), then the
standardisation table. -/
def getFileTypeL (filename : List Char) : List Char :=
  mapExt (lstripDot (toLowerL (pySuffix (pathlibName filename))))

/-- String-level wrapper for get_file_type. -/
def get_file_type (filename : String) : String :=
  String.mk (getFileTypeL filename.toList)

/-! ### The sharing-link resolver (excel.py lines 138-145) -/

/-- The containment test of the first resolver branch. -/
def driveFileSeg : List Char := "drive.google.com/file/d/".toList

/-- The separator the first branch splits on. -/
def fileDSep : List Char := "/file/d/".toList

/-- The containment test of the second resolver branch. -/
def driveOpenSeg : List Char := "drive.google.com/open?id=".toList

/-- The separator the second branch splits on. -/
def openIdSep : List Char := "open?id=".toList

/-- The direct-download endpoint built from an extracted identifier. -/
def googleEndpoint (fid : List Char) : List Char :=
  "https://drive.google.com/uc?export=download&id=".toList ++ fid

/-- The URL rewrite at the top of download_file: Google Drive sharing links
are converted to direct-download links, everything else passes through. -/
def resolveUrl (url : List Char) : List Char :=
  if hasSub driveFileSeg url then
    googleEndpoint (takeUntil '?' (takeUntil '/' (pySplitGet1 fileDSep url)))
  else if hasSub driveOpenSeg url then
    googleEndpoint (takeUntil '&' (pySplitGet1 openIdSep url))
  else url

/-! ### Data model -/

/-- A spreadsheet cell as pandas hands it to the loop: NaN/missing, a
string, a number, or a datetime-like value (carried as its isoformat). -/
inductive CellValue
  | na
  | str (s : String)
  | num (n : Int)
  | date (iso : String)
deriving DecidableEq

/-- One spreadsheet row: column name to cell value. -/
abbrev SheetRow := List (String × CellValue)

/-- The loaded spreadsheet: its column names and its rows. -/
structure Frame where
  columns : List String
  rows : List SheetRow
deriving DecidableEq

/-- The metadata dict assembled per row (excel.py lines 311-334).  A none
field means the key is absent from the dict; name/author/type keep the raw
cell value, url and date always hold strings when present. -/
structure RowMetadata where
  url : Option String
  name : Option CellValue
  author : Option CellValue
  date : Option String
  typ : Option CellValue
deriving DecidableEq

/-- Python truthiness of the metadata dict: truthy iff some key is set. -/
def metaTruthy (m : RowMetadata) : Bool :=
  m.url.isSome || m.name.isSome || m.author.isSome || m.date.isSome || m.typ.isSome

/-- The doc_metadata record built before the catalog insert
(excel.py lines 236-246). -/
structure DocMetadata where
  title : CellValue
  author : Option CellValue
  upload_date : String
  last_modified : Option String
  file_type : String
  source_url : Option String
deriving DecidableEq

/-- The catalog record inserted into the documents table
(excel.py lines 249-260). -/
structure DocRecord where
  id : String
  filename : String
  filetype : String
  filesize : Nat
  storage_path : String
  title : CellValue
  author : Option CellValue
  upload_date : String
  last_modified : Option String
  metadata : DocMetadata
deriving DecidableEq

/-- A parsed JSON object body, as a key-value list. -/
abbrev Body := List (String × String)

/-- An HTTP response as the code inspects it: status code and parsed body. -/
structure HttpResp where
  status : Nat
  body : Body
deriving DecidableEq

/-- An observable external call made by the script. -/
inductive Call
  | httpGet (url : String)
  | storageUpload (bucket : String) (path : String) (contentType : String)
  | catalogInsert (table : String) (record : DocRecord)
deriving DecidableEq

/-- Everything the environment supplies to one upload_to_supabase call: the
generated uuid, the file size on disk, the guessed MIME type, the clock,
and the two service responses. -/
structure UploadWorld where
  documentId : String
  fileSize : Nat
  mimeGuess : Option String
  now : String
  storageResp : HttpResp
  insertResp : HttpResp
deriving DecidableEq

/-- The per-row environment in the main loop: the filename download_file
derives from the response (none = download error) plus the upload world. -/
structure RowWorld where
  dlResult : Option String
  fileSize : Nat
  mimeGuess : Option String
  now : String
  storageResp : HttpResp
  insertResp : HttpResp
deriving DecidableEq

/-- The parsed command-line arguments the loop consults. -/
structure Args where
  column : String
  name_column : Option String
  author_column : Option String
  date_column : Option String
  type_column : Option String

/-- The outcome of a run: process exit with a code, or the final summary
counters. -/
inductive RunResult
  | exitCode (code : Nat)
  | summary (succ : Nat) (fail : Nat)
deriving DecidableEq

/-! ### Supabase API helpers (excel.py lines 85-122) -/

/-- The storage bucket name used by every upload. -/
def documentsBucket : String := "documents"

/-- The catalog table name used by every insert. -/
def documentsTable : String := "documents"

/-- supabase_upload_file: one POST to storage; None unless the status is
exactly 200, else the parsed body.  The call itself is recorded. -/
def supabase_upload_file (bucket path contentType : String) (resp : HttpResp) :
    List Call × Option Body :=
  ([Call.storageUpload bucket path contentType],
    if resp.status ≠ 200 then none else some resp.body)

/-- supabase_insert_record: one POST to the catalog; None unless the status
is exactly 201, else the parsed body. -/
def supabase_insert_record (table : String) (record : DocRecord) (resp : HttpResp) :
    List Call × Option Body :=
  ([Call.catalogInsert table record],
    if resp.status ≠ 201 then none else some resp.body)

/-- The failure test at excel.py line 231: not result or not result.get(Key).
None fails; an empty dict fails; an absent or empty Key fails. -/
def storageFailed : Option Body → Bool
  | none => true
  | some b =>
    b.isEmpty ||
      (match b.lookup "Key" with
       | none => true
       | some v => v = "")

/-- The failure test at excel.py line 262: not db_result. -/
def insertFailed : Option Body → Bool
  | none => true
  | some b => b.isEmpty

/-! ### upload_to_supabase (excel.py lines 203-271) -/

/-- The fallback content type of the storage upload. -/
def octetStream : String := "application/octet-stream"

/-- The doc_metadata dict (excel.py lines 239-246).  Each field chooses the
supplied value when the metadata dict is truthy, else the default; the title
default (the filename) also applies when the name key is absent. -/
def buildDocMetadata (filename : String) (metadata : Option RowMetadata)
    (now : String) (file_type : String) : DocMetadata :=
  match metadata with
  | some m =>
    if metaTruthy m then
      { title := m.name.getD (CellValue.str filename)
        author := m.author
        upload_date := now
        last_modified := m.date
        file_type := file_type
        source_url := m.url }
    else
      { title := CellValue.str filename, author := none, upload_date := now,
        last_modified := some now, file_type := file_type, source_url := none }
  | none =>
    { title := CellValue.str filename, author := none, upload_date := now,
      last_modified := some now, file_type := file_type, source_url := none }

/-- The record literal passed to supabase_insert_record
(excel.py lines 249-260), extracted as a definition. -/
def mkDocRecord (filename : String) (metadata : Option RowMetadata)
    (w : UploadWorld) : DocRecord :=
  let file_type := get_file_type filename
  let doc_metadata := buildDocMetadata filename metadata w.now file_type
  { id := w.documentId
    filename := filename
    filetype := file_type
    filesize := w.fileSize
    storage_path := w.documentId ++ "/" ++ filename
    title := doc_metadata.title
    author := doc_metadata.author
    upload_date := doc_metadata.upload_date
    last_modified := doc_metadata.last_modified
    metadata := doc_metadata }

/-- upload_to_supabase: generate the id, upload the bytes under
id/filename, and only on a keyed success insert the catalog record.
Returns the generated id on full success, None otherwise, together with the
calls made. -/
def upload_to_supabase (filename : String) (metadata : Option RowMetadata)
    (w : UploadWorld) : Option String × List Call :=
  let storage_path := w.documentId ++ "/" ++ filename
  let up := supabase_upload_file documentsBucket storage_path
    (w.mimeGuess.getD octetStream) w.storageResp
  if storageFailed up.2 then (none, up.1)
  else
    let record := mkDocRecord filename metadata w
    let ins := supabase_insert_record documentsTable record w.insertResp
    if insertFailed ins.2 then (none, up.1 ++ ins.1)
    else (some w.documentId, up.1 ++ ins.1)

/-! ### download_file and the main loop (excel.py lines 136-185, 273-362) -/

/-- download_file: rewrite the URL, then stream a GET.  The response-derived
filename (Content-Disposition, URL tail, MIME-guessed extension) and the
transfer outcome are supplied by the environment as dlResult; the rewrite of
the url local variable is fully modelled. -/
def download_file (url : String) (dlResult : Option String) :
    List Call × Option String :=
  ([Call.httpGet (String.mk (resolveUrl url.toList))], dlResult)

/-- The metadata dict assembly for one row (excel.py lines 311-334): url is
the raw cell text; name/author/type are copied verbatim when their column
was requested and exists; a date cell is kept as isoformat when
datetime-like, best-effort parsed when a string (falling back to the raw
string), and skipped otherwise. -/
def rowMetadata (nameCol authorCol dateCol typeCol : Option String)
    (cols : List String) (parseDate : String → Option String)
    (row : SheetRow) (url : String) : RowMetadata :=
  let optCell : Option String → Option CellValue := fun oc =>
    match oc with
    | some c => if c ≠ "" ∧ cols.contains c then row.lookup c else none
    | none => none
  { url := some url
    name := optCell nameCol
    author := optCell authorCol
    date :=
      match optCell dateCol with
      | some (CellValue.date iso) => some iso
      | some (CellValue.str ds) => some ((parseDate ds).getD ds)
      | _ => none
    typ := optCell typeCol }

/-- Python: not url.strip() — true when the string is empty or all
whitespace (the blank test at excel.py line 305). -/
def pyBlank (s : String) : Bool := s.data.all Char.isWhitespace

/-- Prepend the calls one row made to the outcome of the remaining rows
(on both the normal and the exception path). -/
def exWithCalls (cs : List Call) :
    Except (List Call) (Nat × Nat × List Call) →
      Except (List Call) (Nat × Nat × List Call)
  | Except.error t => Except.error (cs ++ t)
  | Except.ok (s, f, t) => Except.ok (s, f, cs ++ t)

/-- The calls made by a loop outcome, exception or not. -/
def exTrace : Except (List Call) (Nat × Nat × List Call) → List Call
  | Except.error t => t
  | Except.ok sft => sft.2.2

/-- The per-row loop (excel.py lines 301-350).  An Except.error models an
exception escaping the per-row code into the run-level handler: a missing
link key (KeyError) or a non-string link cell (AttributeError on strip).
The uuid stream supplies str(uuid.uuid4()); the k-th upload attempt consumes
uuids k.  Skipped rows make no calls and change no counter. -/
def processRows (linkCol : String)
    (nameCol authorCol dateCol typeCol : Option String) (cols : List String)
    (parseDate : String → Option String) (uuids : Nat → String) :
    List (SheetRow × RowWorld) → Nat → Nat → Nat →
      Except (List Call) (Nat × Nat × List Call)
  | [], _, s, f => Except.ok (s, f, [])
  | (row, w) :: rest, k, s, f =>
    match row.lookup linkCol with
    | none => Except.error []
    | some cell =>
      match cell with
      | CellValue.na =>
        processRows linkCol nameCol authorCol dateCol typeCol cols parseDate
          uuids rest k s f
      | CellValue.num _ => Except.error []
      | CellValue.date _ => Except.error []
      | CellValue.str u =>
        if pyBlank u then
          processRows linkCol nameCol authorCol dateCol typeCol cols parseDate
            uuids rest k s f
        else
          let md := rowMetadata nameCol authorCol dateCol typeCol cols
            parseDate row u
          let dl := download_file u w.dlResult
          match dl.2 with
          | none =>
            exWithCalls dl.1
              (processRows linkCol nameCol authorCol dateCol typeCol cols
                parseDate uuids rest k s (f + 1))
          | some filename =>
            let uw : UploadWorld :=
              { documentId := uuids k, fileSize := w.fileSize,
                mimeGuess := w.mimeGuess, now := w.now,
                storageResp := w.storageResp, insertResp := w.insertResp }
            let up := upload_to_supabase filename (some md) uw
            match up.1 with
            | some _ =>
              exWithCalls (dl.1 ++ up.2)
                (processRows linkCol nameCol authorCol dateCol typeCol cols
                  parseDate uuids rest (k + 1) (s + 1) f)
            | none =>
              exWithCalls (dl.1 ++ up.2)
                (processRows linkCol nameCol authorCol dateCol typeCol cols
                  parseDate uuids rest (k + 1) s (f + 1))

/-- main after the spreadsheet was read (excel.py lines 287-362): abort with
exit status 1 when the requested link column is absent, before any row is
touched; otherwise run the loop, mapping an escaped exception to exit
status 1 and normal completion to the summary counters.  Each row is paired
with its environment; credentials and the file read are prior to this
model. -/
def main_run (args : Args) (frame : Frame) (worlds : List RowWorld)
    (parseDate : String → Option String) (uuids : Nat → String) :
    RunResult × List Call :=
  if frame.columns.contains args.column then
    match processRows args.column args.name_column args.author_column
        args.date_column args.type_column frame.columns parseDate uuids
        (frame.rows.zip worlds) 0 0 0 with
    | Except.error t => (RunResult.exitCode 1, t)
    | Except.ok (s, f, t) => (RunResult.summary s f, t)
  else (RunResult.exitCode 1, [])

/-- The records carried by the catalog-insert calls of a trace. -/
def insertedRecords (trace : List Call) : List DocRecord :=
  trace.filterMap fun c =>
    match c with
    | Call.catalogInsert _ r => some r
    | _ => none

/-- Every catalog insert in the trace sits immediately after a storage
upload whose key equals the storage path recorded in the inserted record. -/
def insertsPaired : List Call → Bool
  | Call.storageUpload _ p _ :: Call.catalogInsert _ r :: rest =>
    (r.storage_path = p) && insertsPaired rest
  | Call.catalogInsert _ _ :: _ => false
  | _ :: rest => insertsPaired rest
  | [] => true

/-! ### Spec-side definitions, written from the claims under check -/

/-- Claim C4 as stated: both identifiers are read from the text after the
first occurrence of the relevant segment, the first up to the next slash
with a trailing query stripped, the second up to the next ampersand. -/
def claimResolve (url : List Char) : List Char :=
  if hasSub driveFileSeg url then
    googleEndpoint (takeUntil '?' (takeUntil '/' (afterFirstOcc fileDSep url)))
  else if hasSub driveOpenSeg url then
    googleEndpoint (takeUntil '&' (afterFirstOcc openIdSep url))
  else url

/-- Claim C4 amended: in the open-id branch the identifier additionally
stops at the next occurrence of the separator itself, as Python split
chunks do. -/
def amendedResolve (url : List Char) : List Char :=
  if hasSub driveFileSeg url then
    googleEndpoint (takeUntil '?' (takeUntil '/' (afterFirstOcc fileDSep url)))
  else if hasSub driveOpenSeg url then
    googleEndpoint
      (takeUntil '&' (chunkBefore openIdSep (afterFirstOcc openIdSep url)))
  else url

/-- Claim C5 as stated: lower-case the text after the last dot of the
filename (empty when there is no dot), then apply the standardisation
table. -/
def claimFileType (filename : List Char) : List Char :=
  mapExt (toLowerL ((afterLastDot filename).getD []))

/-- Claim C5 amended: as stated, except that a filename whose last dot is
its leading character (a hidden file such as .bashrc) is treated as
extensionless. -/
def amendedFileType (filename : List Char) : List Char :=
  match filename with
  | '.' :: rest => if '.' ∈ rest then claimFileType filename else []
  | _ => claimFileType filename

/-- Claim C2 as stated, for a call whose metadata argument is present:
title is the supplied name, defaulting to the filename; author and
sourceUrl are the supplied values; the upload timestamp is the current
time; last-modified defaults to the current time, overridden by the
supplied date. -/
def claimMetadataOK (filename : String) (m : RowMetadata) (now : String)
    (d : DocMetadata) : Prop :=
  d.title = m.name.getD (CellValue.str filename) ∧
  d.author = m.author ∧
  d.source_url = m.url ∧
  d.upload_date = now ∧
  d.last_modified = some (m.date.getD now)

/-- Does the parsed body carry a truthy storage key? -/
def keyTruthy (b : Body) : Bool :=
  match b.lookup ("Key") with
  | none => false
  | some v => !(v = "" : Bool)

/-- Claim C6 as stated: the upload is a success exactly on a 200-class
status whose body contains a storage key. -/
def claimUploadSuccess (resp : HttpResp) : Bool :=
  (200 ≤ resp.status && resp.status < 300) && keyTruthy resp.body

/-- A trace that does not begin with a catalog insert (every row's calls
begin with its download GET). -/
def noLeadInsert : List Call → Prop
  | Call.catalogInsert _ _ :: _ => False
  | _ => True

/-! ### Concrete fixtures used by the witness theorems -/

/-- A date parser that never succeeds (witness fixture). -/
def parseDateW : String → Option String := fun _ => none

/-- An injective uuid stream (witness fixture). -/
def uuidsW : Nat → String := fun n => String.mk (List.replicate n 'u')

/-- A keyed 200 storage response (witness fixture). -/
def okStorageResp : HttpResp := { status := 200, body := [("Key", "k")] }

/-- A 201 insert response with a returned representation (witness
fixture). -/
def okInsertResp : HttpResp := { status := 201, body := [("id", "1")] }

/-- A failed storage response (witness fixture). -/
def badStorageResp : HttpResp := { status := 500, body := [] }

/-- A fully successful upload world (witness fixture). -/
def wOK : UploadWorld :=
  { documentId := "docid", fileSize := 7, mimeGuess := some "application/pdf",
    now := "2024-06-01T12:00:00", storageResp := okStorageResp,
    insertResp := okInsertResp }

/-- An upload world whose storage call fails (witness fixture). -/
def wFail : UploadWorld :=
  { documentId := "docid", fileSize := 7, mimeGuess := none, now := "T0",
    storageResp := badStorageResp, insertResp := okInsertResp }

/-- A fully successful row world (witness fixture). -/
def rwOK : RowWorld :=
  { dlResult := some "f.pdf", fileSize := 7,
    mimeGuess := some "application/pdf", now := "2024-06-01T12:00:00",
    storageResp := okStorageResp, insertResp := okInsertResp }

/-- A supplied metadata dict with a name and a date but no author (witness
fixture). -/
def mW : RowMetadata :=
  { url := some "http://raw.example/src", name := some (CellValue.str "Nice Title"),
    author := none, date := some "2020-01-02T00:00:00", typ := none }

/-- Arguments naming only a link column (witness fixture). -/
def argsW : Args :=
  { column := "link", name_column := none, author_column := none,
    date_column := none, type_column := none }

/-- A two-row frame with plain direct links (witness fixture). -/
def frameW3 : Frame :=
  { columns := ["link"],
    rows := [[("link", CellValue.str "http://a.example/one.pdf")],
             [("link", CellValue.str "http://a.example/two.pdf")]] }

/-- The raw sharing-link text of the c10 witness row. -/
def rawW : String := "https://drive.google.com/file/d/FILEID/view?usp=sharing"

/-- A one-row frame whose link cell holds a sharing link (witness
fixture). -/
def frameW2 : Frame :=
  { columns := ["link"], rows := [[("link", CellValue.str rawW)]] }

/-- An all-default catalog record (fixture used to take the head of a
computed record list). -/
def recDefault : DocRecord :=
  { id := "", filename := "", filetype := "", filesize := 0,
    storage_path := "", title := CellValue.na, author := none,
    upload_date := "", last_modified := none,
    metadata := { title := CellValue.na, author := none, upload_date := "",
                  last_modified := none, file_type := "",
                  source_url := none } }

/-- The record the c10 witness run inserts. -/
def recW : DocRecord :=
  (insertedRecords (main_run argsW frameW2 [rwOK] parseDateW uuidsW).2).headD
    recDefault

/-! ### Theorems -/

/-- C7: when the requested link column is not among the input columns, the
run aborts with exit status 1 during setup, with an empty call trace (zero
network calls, no row processed). -/
theorem c7_missing_column_aborts (args : Args) (frame : Frame)
    (worlds : List RowWorld) (parseDate : String → Option String)
    (uuids : Nat → String)
    (h : frame.columns.contains args.column = false) :
    main_run args frame worlds parseDate uuids = (RunResult.exitCode 1, []) := by
  unfold main_run
  rw [h]
  simp

/-- Witness for C7 at a concrete frame lacking the requested column. -/
theorem c7_witness :
    ((Frame.mk ["other"] []).columns.contains argsW.column = false) ∧
    main_run argsW (Frame.mk ["other"] []) [] parseDateW uuidsW =
      (RunResult.exitCode 1, []) :=
  ⟨by decide, c7_missing_column_aborts argsW (Frame.mk ["other"] []) [] parseDateW
    uuidsW (by decide)⟩

/-- C8: a row whose link cell is missing (NaN) or blank/whitespace-only is
skipped outright: the loop outcome over the remaining rows is unchanged, so
the row contributes no Fetcher or Ingestor call and neither counter moves. -/
theorem c8_blank_link_skipped (linkCol : String)
    (nameCol authorCol dateCol typeCol : Option String) (cols : List String)
    (parseDate : String → Option String) (uuids : Nat → String)
    (row : SheetRow) (w : RowWorld) (rest : List (SheetRow × RowWorld))
    (k s f : Nat)
    (h : row.lookup linkCol = some CellValue.na ∨
      ∃ u, row.lookup linkCol = some (CellValue.str u) ∧ pyBlank u = true) :
    processRows linkCol nameCol authorCol dateCol typeCol cols parseDate uuids
        ((row, w) :: rest) k s f =
      processRows linkCol nameCol authorCol dateCol typeCol cols parseDate
        uuids rest k s f := by
  rcases h with h | ⟨u, h, hu⟩
  · simp [processRows, h]
  · simp [processRows, h, hu]

/-- Witness for C8 at a concrete whitespace-only row. -/
theorem c8_witness :
    (([("link", CellValue.str "   ")] : SheetRow).lookup ("link") =
        some CellValue.na ∨
      ∃ u, ([("link", CellValue.str "   ")] : SheetRow).lookup ("link") =
        some (CellValue.str u) ∧ pyBlank u = true) ∧
    processRows ("link") none none none none ["link"] parseDateW uuidsW
        (([("link", CellValue.str "   ")], rwOK) :: []) 0 0 0 =
      processRows ("link") none none none none ["link"] parseDateW uuidsW []
        0 0 0 :=
  ⟨Or.inr ⟨"   ", by decide, by decide⟩,
    c8_blank_link_skipped ("link") none none none none ["link"] parseDateW
      uuidsW [("link", CellValue.str "   ")] rwOK [] 0 0 0
      (Or.inr ⟨"   ", by decide, by decide⟩)⟩

/-- C9: a present but non-string link cell (here a number) is neither
skipped nor counted: the blank check raises, the exception escapes the
per-row code, the run-level handler exits with status 1, and the remaining
rows are never reached (the loop outcome ignores them). -/
theorem c9_nonstring_link_aborts (args : Args) (frame : Frame)
    (worlds : List RowWorld) (parseDate : String → Option String)
    (uuids : Nat → String) (row : SheetRow) (w : RowWorld)
    (rest : List (SheetRow × RowWorld)) (n : Int)
    (hcol : frame.columns.contains args.column = true)
    (hzip : frame.rows.zip worlds = (row, w) :: rest)
    (hlink : row.lookup args.column = some (CellValue.num n)) :
    main_run args frame worlds parseDate uuids = (RunResult.exitCode 1, []) ∧
    ∀ (rest' : List (SheetRow × RowWorld)) (k s f : Nat),
      processRows args.column args.name_column args.author_column
          args.date_column args.type_column frame.columns parseDate uuids
          ((row, w) :: rest') k s f = Except.error [] := by
  constructor
  · unfold main_run
    rw [hcol, hzip]
    simp [processRows, hlink]
  · intro rest' k s f
    simp [processRows, hlink]

/-- Witness for C9 at a concrete one-row frame holding a numeric link
cell. -/
theorem c9_witness :
    ((Frame.mk ["link"] [[("link", CellValue.num 7)]]).columns.contains
        argsW.column = true) ∧
    ((Frame.mk ["link"] [[("link", CellValue.num 7)]]).rows.zip [rwOK] =
      ([("link", CellValue.num 7)], rwOK) :: []) ∧
    (main_run argsW (Frame.mk ["link"] [[("link", CellValue.num 7)]]) [rwOK]
        parseDateW uuidsW = (RunResult.exitCode 1, []) ∧
      ∀ (rest' : List (SheetRow × RowWorld)) (k s f : Nat),
        processRows argsW.column argsW.name_column argsW.author_column
            argsW.date_column argsW.type_column
            (Frame.mk ["link"] [[("link", CellValue.num 7)]]).columns
            parseDateW uuidsW (([("link", CellValue.num 7)], rwOK) :: rest')
            k s f = Except.error []) :=
  ⟨by decide, by decide,
    c9_nonstring_link_aborts argsW (Frame.mk ["link"] [[("link", CellValue.num 7)]])
      [rwOK] parseDateW uuidsW [("link", CellValue.num 7)] rwOK [] 7
      (by decide) (by decide) (by decide)⟩

/-- C1: when the storage upload helper returns None or a body without a
key, upload_to_supabase returns None and its trace holds no catalog-insert
call: the catalog write is never attempted without a keyed upload
success. -/
theorem c1_no_catalog_without_key (filename : String)
    (metadata : Option RowMetadata) (w : UploadWorld)
    (h : storageFailed (supabase_upload_file documentsBucket
        (w.documentId ++ "/" ++ filename) (w.mimeGuess.getD octetStream)
        w.storageResp).2 = true) :
    (upload_to_supabase filename metadata w).1 = none ∧
    ∀ (t : String) (r : DocRecord),
      Call.catalogInsert t r ∉ (upload_to_supabase filename metadata w).2 := by
  have h' : storageFailed
      (if w.storageResp.status = 200 then some w.storageResp.body else none) =
        true := by
    simpa [supabase_upload_file] using h
  unfold upload_to_supabase supabase_upload_file
  simp [h']

/-- Witness for C1 at a concrete failed storage response. -/
theorem c1_witness :
    (storageFailed (supabase_upload_file documentsBucket
        (wFail.documentId ++ "/" ++ "f.pdf") (wFail.mimeGuess.getD octetStream)
        wFail.storageResp).2 = true) ∧
    ((upload_to_supabase ("f.pdf") (some mW) wFail).1 = none ∧
      ∀ (t : String) (r : DocRecord),
        Call.catalogInsert t r ∉ (upload_to_supabase ("f.pdf") (some mW) wFail).2) :=
  ⟨by decide, c1_no_catalog_without_key ("f.pdf") (some mW) wFail (by decide)⟩

/-- C6 counterexample: a 201 response carrying a storage key is a 200-class
keyed success under the claim, yet the code treats it as a storage
failure — only status exactly 200 succeeds. -/
theorem c6_counterexample :
    claimUploadSuccess (HttpResp.mk 201 [("Key", "k")]) = true ∧
    storageFailed (supabase_upload_file documentsBucket ("d/f.pdf")
      octetStream (HttpResp.mk 201 [("Key", "k")])).2 = true := by
  decide

/-- C6 amended: the storage upload is treated as a success exactly when the
status is exactly 200 and the parsed body carries a truthy storage key; any
other status — including other 200-class statuses — or a keyless 200 body
is a failure. -/
theorem c6_success_iff (bucket path contentType : String) (resp : HttpResp) :
    storageFailed (supabase_upload_file bucket path contentType resp).2 =
        false ↔
      (resp.status = 200 ∧ keyTruthy resp.body = true) := by
  unfold supabase_upload_file storageFailed keyTruthy
  by_cases hs : resp.status = 200
  · cases hk : resp.body.lookup ("Key") with
    | none =>
      simp [hs, hk]
    | some v =>
      have hne : resp.body.isEmpty = false := by
        cases hb : resp.body with
        | nil => rw [hb] at hk; simp [List.lookup] at hk
        | cons a l => simp [List.isEmpty]
      simp [hs, hk, hne]
  · simp [hs]

/-- The two call-trace shapes of upload_to_supabase: a lone storage call on
a failed upload, a storage call followed by the catalog insert of the built
record otherwise. -/
theorem upload_to_supabase_eq (filename : String) (md : Option RowMetadata)
    (w : UploadWorld) :
    upload_to_supabase filename md w =
      (if storageFailed (supabase_upload_file documentsBucket
          (w.documentId ++ "/" ++ filename) (w.mimeGuess.getD octetStream)
          w.storageResp).2 then
        (none, [Call.storageUpload documentsBucket
          (w.documentId ++ "/" ++ filename) (w.mimeGuess.getD octetStream)])
      else
        ((if insertFailed (supabase_insert_record documentsTable
              (mkDocRecord filename md w) w.insertResp).2 then none
          else some w.documentId),
          [Call.storageUpload documentsBucket (w.documentId ++ "/" ++ filename)
             (w.mimeGuess.getD octetStream),
           Call.catalogInsert documentsTable (mkDocRecord filename md w)])) := by
  unfold upload_to_supabase supabase_upload_file supabase_insert_record
  by_cases hs : storageFailed
      (if w.storageResp.status ≠ 200 then none else some w.storageResp.body) = true
  · rw [if_pos hs, if_pos hs]
  · rw [if_neg hs, if_neg hs]
    by_cases hi : insertFailed
        (if w.insertResp.status ≠ 201 then none else some w.insertResp.body) = true
    · rw [if_pos hi, if_pos hi]; rfl
    · rw [if_neg hi, if_neg hi]; rfl

/-- C2 counterexample: with a metadata dict supplied (here carrying only a
source url) but no date, the built record's last-modified field is None,
not the current time the claim promises as the default. -/
theorem c2_counterexample :
    ¬ claimMetadataOK ("report.pdf")
        (RowMetadata.mk (some "http://src") none none none none)
        ("2024-01-01T00:00:00")
        (buildDocMetadata ("report.pdf")
          (some (RowMetadata.mk (some "http://src") none none none none))
          ("2024-01-01T00:00:00") ("pdf")) := by
  unfold claimMetadataOK
  decide

/-- C2 amended: for an Ingestor call with a (non-empty) metadata argument,
the metadata record carried by the catalog insert has title equal to the
supplied name (defaulting to the filename), the supplied author and
sourceUrl (null unless supplied), the current time as upload timestamp, and
the supplied date as last-modified — null, not the current time, when no
date was supplied. -/
theorem c2_metadata_record (filename : String) (m : RowMetadata)
    (w : UploadWorld) (hm : metaTruthy m = true) :
    ∀ rec : DocRecord,
      Call.catalogInsert documentsTable rec ∈
          (upload_to_supabase filename (some m) w).2 →
        rec.metadata.title = m.name.getD (CellValue.str filename) ∧
        rec.metadata.author = m.author ∧
        rec.metadata.source_url = m.url ∧
        rec.metadata.upload_date = w.now ∧
        rec.metadata.last_modified = m.date := by
  intro rec hmem
  rw [upload_to_supabase_eq] at hmem
  by_cases hs : storageFailed (supabase_upload_file documentsBucket
      (w.documentId ++ "/" ++ filename) (w.mimeGuess.getD octetStream)
      w.storageResp).2 = true
  · simp [hs] at hmem
  · simp only [Bool.not_eq_true] at hs
    simp [hs] at hmem
    subst hmem
    simp [mkDocRecord, buildDocMetadata, hm]

/-- Witness for C2 at a concrete successful upload with a supplied name,
date and source url. -/
theorem c2_witness :
    metaTruthy mW = true ∧
    ((mkDocRecord ("a.pdf") (some mW) wOK).metadata.title =
        mW.name.getD (CellValue.str "a.pdf") ∧
      (mkDocRecord ("a.pdf") (some mW) wOK).metadata.author = mW.author ∧
      (mkDocRecord ("a.pdf") (some mW) wOK).metadata.source_url = mW.url ∧
      (mkDocRecord ("a.pdf") (some mW) wOK).metadata.upload_date = wOK.now ∧
      (mkDocRecord ("a.pdf") (some mW) wOK).metadata.last_modified = mW.date) :=
  ⟨by decide,
    c2_metadata_record ("a.pdf") mW wOK (by decide)
      (mkDocRecord ("a.pdf") (some mW) wOK) (by decide)⟩

/-- Cutting a chunk at the next occurrence of a separator that begins with
character c does not change the text before the first c: Python
s.split(sep)[1].split(c)[0] equals taking the whole suffix up to the first
c whenever sep starts with c. -/
theorem takeUntil_chunkBefore (c : Char) (sep : List Char) (r : List Char) :
    takeUntil c (chunkBefore (c :: sep) r) = takeUntil c r := by
  induction r with
  | nil => rfl
  | cons d r' ih =>
    by_cases hp : leadsWith (c :: sep) (d :: r') = true
    · have hd : c = d := by
        have h2 := hp
        simp only [leadsWith, Bool.and_eq_true, decide_eq_true_eq] at h2
        exact h2.1
      have hchunk : chunkBefore (c :: sep) (d :: r') = [] := by
        unfold chunkBefore splitFirst
        rw [if_pos hp]
      rw [hchunk]
      subst hd
      simp [takeUntil]
    · cases h : splitFirst (c :: sep) r' with
      | none =>
        have hchunk : chunkBefore (c :: sep) (d :: r') = d :: r' := by
          unfold chunkBefore splitFirst
          rw [if_neg hp, h]
          rfl
        rw [hchunk]
      | some pr =>
        have hchunk : chunkBefore (c :: sep) (d :: r') = d :: pr.1 := by
          unfold chunkBefore splitFirst
          rw [if_neg hp, h]
          rfl
        have hc' : chunkBefore (c :: sep) r' = pr.1 := by
          unfold chunkBefore
          rw [h]
        rw [hc'] at ih
        rw [hchunk]
        by_cases hd : d = c
        · subst hd
          simp [takeUntil]
        · simp only [takeUntil, List.takeWhile_cons] at ih ⊢
          simp [hd]
          simpa using ih

/-- C4 counterexample: in a link whose open-id payload itself contains a
second open-id marker, the code truncates the identifier at that second
marker, while the claim reads everything up to the next ampersand. -/
theorem c4_counterexample :
    resolveUrl ("drive.google.com/open?id=Aopen?id=B&c".toList) ≠
      claimResolve ("drive.google.com/open?id=Aopen?id=B&c".toList) := by
  decide

/-- C4 amended: the file-d branch is exactly as claimed (identifier between
the segment and the next slash, query stripped); the open-id branch reads
the identifier after the first open-id marker, stopping at the next
occurrence of the marker (a Python split chunk) and then at the next
ampersand; everything else passes through unchanged. -/
theorem c4_resolver (url : List Char) :
    resolveUrl url = amendedResolve url := by
  unfold resolveUrl amendedResolve pySplitGet1
  by_cases h1 : hasSub driveFileSeg url = true
  · rw [if_pos h1, if_pos h1]
    have hsep : fileDSep = '/' :: "file/d/".toList := by decide
    simp only [hsep]
    rw [takeUntil_chunkBefore]
  · rw [if_neg h1, if_neg h1]

/-- Char.ofNat inverts toNat on valid codepoints. -/
theorem toNat_ofNat_valid (m : Nat) (h : m.isValidChar) :
    (Char.ofNat m).toNat = m := by
  rw [Char.ofNat, dif_pos h]
  rfl

/-- Lower-casing never produces a dot from a non-dot character. -/
theorem toLower_ne_dot (c : Char) (hc : c ≠ '.') : Char.toLower c ≠ '.' := by
  unfold Char.toLower
  show (if c.toNat ≥ 65 ∧ c.toNat ≤ 90 then Char.ofNat (c.toNat + 32) else c) ≠ '.'
  by_cases h : c.toNat ≥ 65 ∧ c.toNat ≤ 90
  · rw [if_pos h]
    intro he
    have hv : (Char.toNat c + 32).isValidChar := by
      refine Or.inl ?_
      omega
    have h2 := congrArg Char.toNat he
    rw [toNat_ofNat_valid _ hv] at h2
    have hdot : Char.toNat '.' = 46 := by decide
    omega
  · rw [if_neg h]
    exact hc

/-- Stripping leading dots from the lower-casing of a dot-free text is the
identity. -/
theorem lstripDot_toLower (l : List Char) (h : '.' ∉ l) :
    lstripDot (toLowerL l) = toLowerL l := by
  cases l with
  | nil => rfl
  | cons c cs =>
    have hc : c ≠ '.' := fun he => h (he ▸ List.mem_cons_self c cs)
    have := toLower_ne_dot c hc
    simp [lstripDot, toLowerL, List.dropWhile, this]

/-- The spec-side after-last-dot equals dropping past the rfind index. -/
theorem afterLastDot_eq_rfindDot (f : List Char) :
    afterLastDot f = (rfindDot f).map fun i => f.drop (i + 1) := by
  induction f with
  | nil => rfl
  | cons c rest ih =>
    simp only [afterLastDot, rfindDot]
    cases h : rfindDot rest with
    | some i =>
      rw [h] at ih
      simp at ih
      simp [ih]
    | none =>
      rw [h] at ih
      simp at ih
      by_cases hc : c = '.'
      · simp [ih, hc]
      · simp [ih, hc]

/-- rfind returns none exactly on dot-free text. -/
theorem rfindDot_none_iff (f : List Char) : rfindDot f = none ↔ '.' ∉ f := by
  induction f with
  | nil => simp [rfindDot]
  | cons c rest ih =>
    simp only [rfindDot]
    cases h : rfindDot rest with
    | some i =>
      have : '.' ∈ rest := by
        by_contra hn
        rw [ih.mpr hn] at h
        cases h
      simp [this]
    | none =>
      by_cases hc : c = '.'
      · simp [hc]
      · rw [h] at ih
        simp [hc, Ne.symm hc, ih.mp rfl]

/-- The three facts the suffix computation needs about the rfind index: the
character there is a dot, the text past it is dot-free, and the index is in
range. -/
theorem rfindDot_spec (f : List Char) (i : Nat) (h : rfindDot f = some i) :
    f.drop i = '.' :: f.drop (i + 1) ∧ '.' ∉ f.drop (i + 1) ∧ i < f.length := by
  induction f generalizing i with
  | nil => cases h
  | cons c rest ih =>
    simp only [rfindDot] at h
    cases hr : rfindDot rest with
    | some j =>
      rw [hr] at h
      have hij : i = j + 1 := by
        cases h
        rfl
      subst hij
      obtain ⟨h1, h2, h3⟩ := ih j hr
      refine ⟨?_, ?_, ?_⟩
      · simpa using h1
      · simpa using h2
      · simp
        omega
    | none =>
      rw [hr] at h
      by_cases hc : c = '.'
      · rw [if_pos hc] at h
        have hi : i = 0 := by
          cases h
          rfl
        subst hi
        subst hc
        refine ⟨rfl, ?_, by simp⟩
        simpa using (rfindDot_none_iff rest).mp hr
      · rw [if_neg hc] at h
        cases h

/-- An rfind hit at index zero means a leading dot with a dot-free tail. -/
theorem rfindDot_zero (f : List Char) (h : rfindDot f = some 0) :
    ∃ rest, f = '.' :: rest ∧ '.' ∉ rest := by
  cases f with
  | nil => cases h
  | cons c rest =>
    simp only [rfindDot] at h
    cases hr : rfindDot rest with
    | some j =>
      rw [hr] at h
      cases h
    | none =>
      rw [hr] at h
      by_cases hc : c = '.'
      · exact ⟨rest, by rw [hc], (rfindDot_none_iff rest).mp hr⟩
      · rw [if_neg hc] at h
        cases h

/-- An rfind hit past index zero on a cons comes from a hit in the tail. -/
theorem rfindDot_cons_pos (c : Char) (rest : List Char) (i : Nat)
    (h : rfindDot (c :: rest) = some (i + 1)) : rfindDot rest = some i := by
  simp only [rfindDot] at h
  cases hr : rfindDot rest with
  | some j =>
    rw [hr] at h
    cases h
    rfl
  | none =>
    rw [hr] at h
    by_cases hc : c = '.'
    · rw [if_pos hc] at h
      cases h
    · rw [if_neg hc] at h
      cases h

/-- Splitting on an absent separator yields the single whole chunk. -/
theorem splitOnChar_no_sep (c : Char) (l : List Char) (h : c ∉ l) :
    splitOnChar c l = [l] := by
  induction l with
  | nil => rfl
  | cons d rest ih =>
    have hd : d ≠ c := fun he => h (he ▸ List.mem_cons_self d rest)
    have hr : c ∉ rest := fun hm => h (List.mem_cons_of_mem d hm)
    simp only [splitOnChar]
    rw [if_neg hd, ih hr]

/-- On a slash-free filename the pathlib name step is the identity, except
that the empty name and the bare dot collapse to the empty name. -/
theorem pathlibName_no_slash (f : List Char) (h : '/' ∉ f) :
    pathlibName f = if f = [] ∨ f = ['.'] then [] else f := by
  unfold pathlibName
  rw [splitOnChar_no_sep '/' f h]
  by_cases h0 : f = []
  · subst h0
    rfl
  · by_cases h1 : f = ['.']
    · subst h1
      rfl
    · have hkeep : keepComponent f = true := by
        unfold keepComponent
        cases f with
        | nil => exact absurd rfl h0
        | cons a l =>
          simp only [List.isEmpty, Bool.not_false, Bool.true_and]
          have h2 : ¬(a = '.' ∧ l = []) := by simpa using h1
          simpa using not_and_or.mp h2
      rw [if_neg (by simp [h0, h1])]
      simp [List.filter, hkeep]

/-- The amended classifier is the claimed classifier or empty. -/
theorem amendedFileType_eq_claim_or_nil (f : List Char) :
    amendedFileType f = claimFileType f ∨ amendedFileType f = [] := by
  unfold amendedFileType
  split
  · split
    · exact Or.inl rfl
    · exact Or.inr rfl
  · exact Or.inl rfl

/-- When every leading-dot reading of the filename still has a dot in its
tail, the amended classifier agrees with the claimed one. -/
theorem amendedFileType_of_head (f : List Char)
    (h : ∀ rest, f = '.' :: rest → '.' ∈ rest) :
    amendedFileType f = claimFileType f := by
  unfold amendedFileType
  split
  · next rest => rw [if_pos (h rest rfl)]
  · rfl

/-- A hidden filename (leading dot, dot-free tail) gets the empty amended
classification. -/
theorem amendedFileType_hidden (rest : List Char) (h : '.' ∉ rest) :
    amendedFileType ('.' :: rest) = [] := by
  show (if '.' ∈ rest then claimFileType ('.' :: rest) else []) = []
  rw [if_neg h]

/-- Unfolding the suffix computation at a known rfind result. -/
theorem pySuffix_some (name : List Char) (i : Nat)
    (h : rfindDot name = some i) :
    pySuffix name =
      if 0 < i ∧ i < name.length - 1 then name.drop i else [] := by
  unfold pySuffix
  rw [h]

/-- The suffix is empty when the name has no dot. -/
theorem pySuffix_none (name : List Char) (h : rfindDot name = none) :
    pySuffix name = [] := by
  unfold pySuffix
  rw [h]

/-- C5 counterexample: the claim computes extension bashrc for the hidden
file .bashrc, but the code (via the pathlib suffix rule) classifies it as
extensionless. -/
theorem c5_counterexample :
    getFileTypeL (".bashrc".toList) ≠ claimFileType (".bashrc".toList) := by
  decide

/-- C5 amended: on slash-free filenames the classifier is total and
case-insensitive, lower-casing the text after the last dot (empty when
there is no dot) and applying the pdf/docx/pptx/xlsx table, except that a
filename whose last dot is its leading character is treated as
extensionless. -/
theorem c5_classifier (f : List Char) (h : '/' ∉ f) :
    getFileTypeL f = amendedFileType f := by
  unfold getFileTypeL
  rw [pathlibName_no_slash f h]
  by_cases h0 : f = []
  · subst h0
    decide
  · by_cases h1 : f = ['.']
    · subst h1
      decide
    · rw [if_neg (by simp [h0, h1])]
      cases hrf : rfindDot f with
      | none =>
        have hald : afterLastDot f = none := by
          rw [afterLastDot_eq_rfindDot, hrf]
          rfl
        have hclaim : claimFileType f = [] := by
          unfold claimFileType
          rw [hald]
          decide
        have hcode : pySuffix f = [] := pySuffix_none f hrf
        rw [hcode]
        have hL : mapExt (lstripDot (toLowerL ([] : List Char))) = [] := by
          decide
        rw [hL]
        rcases amendedFileType_eq_claim_or_nil f with ha | ha
        · rw [ha, hclaim]
        · rw [ha]
      | some i =>
        obtain ⟨hdrop, hnodot, hbound⟩ := rfindDot_spec f i hrf
        have hald : afterLastDot f = some (f.drop (i + 1)) := by
          rw [afterLastDot_eq_rfindDot, hrf]
          rfl
        by_cases hi0 : i = 0
        · subst hi0
          obtain ⟨rest, hfr, hrnd⟩ := rfindDot_zero f hrf
          have hcode : pySuffix f = [] := by
            rw [pySuffix_some f 0 hrf, if_neg]
            simp
          rw [hcode]
          have hL : mapExt (lstripDot (toLowerL ([] : List Char))) = [] := by
            decide
          rw [hL, hfr, amendedFileType_hidden rest hrnd]
        · by_cases hilen : i < f.length - 1
          · have hcode : pySuffix f = f.drop i := by
              rw [pySuffix_some f i hrf,
                if_pos ⟨Nat.pos_of_ne_zero hi0, hilen⟩]
            rw [hcode, hdrop]
            have hlow : toLowerL ('.' :: f.drop (i + 1)) =
                '.' :: toLowerL (f.drop (i + 1)) := by
              have hd : Char.toLower '.' = '.' := by decide
              simp [toLowerL, hd]
            rw [hlow]
            have hstrip : lstripDot ('.' :: toLowerL (f.drop (i + 1))) =
                lstripDot (toLowerL (f.drop (i + 1))) := by
              simp [lstripDot, List.dropWhile]
            rw [hstrip, lstripDot_toLower _ hnodot]
            have hamend : amendedFileType f = claimFileType f := by
              apply amendedFileType_of_head
              intro rest hfr
              obtain ⟨j, hj⟩ : ∃ j, i = j + 1 := ⟨i - 1, by omega⟩
              have hi : rfindDot ('.' :: rest) = some (j + 1) := by
                rw [← hfr, ← hj]
                exact hrf
              have hj2 := rfindDot_cons_pos '.' rest j hi
              by_contra hmem
              rw [(rfindDot_none_iff rest).mpr hmem] at hj2
              cases hj2
            rw [hamend]
            unfold claimFileType
            rw [hald]
            rfl
          · have hcode : pySuffix f = [] := by
              rw [pySuffix_some f i hrf, if_neg]
              intro hcon
              exact hilen hcon.2
            rw [hcode]
            have hL : mapExt (lstripDot (toLowerL ([] : List Char))) = [] := by
              decide
            rw [hL]
            have hdropnil : f.drop (i + 1) = [] := by
              apply List.drop_eq_nil_of_le
              omega
            have hclaim : claimFileType f = [] := by
              unfold claimFileType
              rw [hald, hdropnil]
              decide
            rcases amendedFileType_eq_claim_or_nil f with ha | ha
            · rw [ha, hclaim]
            · rw [ha]

/-- Witness for C5 at a concrete slash-free filename. -/
theorem c5_witness :
    ('/' ∉ "Report.PDF".toList) ∧
    getFileTypeL ("Report.PDF".toList) = amendedFileType ("Report.PDF".toList) :=
  ⟨by decide, c5_classifier ("Report.PDF".toList) (by decide)⟩

/-- Prepending calls distributes over the trace of a loop outcome. -/
theorem exTrace_exWithCalls (cs : List Call)
    (e : Except (List Call) (Nat × Nat × List Call)) :
    exTrace (exWithCalls cs e) = cs ++ exTrace e := by
  cases e with
  | error t => rfl
  | ok sft =>
    obtain ⟨a, b, t⟩ := sft
    rfl

/-- Inserted records split over trace concatenation. -/
theorem insertedRecords_append (a b : List Call) :
    insertedRecords (a ++ b) = insertedRecords a ++ insertedRecords b := by
  unfold insertedRecords
  rw [List.filterMap_append]

/-- A download GET contributes no inserted record. -/
theorem insertedRecords_httpGet (u : String) (t : List Call) :
    insertedRecords (Call.httpGet u :: t) = insertedRecords t := rfl

/-- A storage upload contributes no inserted record. -/
theorem insertedRecords_upload (b p ct : String) (t : List Call) :
    insertedRecords (Call.storageUpload b p ct :: t) = insertedRecords t := rfl

/-- A catalog insert contributes its record. -/
theorem insertedRecords_insert (tb : String) (r : DocRecord) (t : List Call) :
    insertedRecords (Call.catalogInsert tb r :: t) = r :: insertedRecords t :=
  rfl

/-- The pairing invariant ignores a leading GET. -/
theorem insertsPaired_httpGet (u : String) (t : List Call) :
    insertsPaired (Call.httpGet u :: t) = insertsPaired t := by
  cases t with
  | nil => rfl
  | cons c t' => cases c <;> rfl

/-- The pairing invariant ignores a storage upload not followed by an
insert. -/
theorem insertsPaired_upload_noInsert (b p ct : String) (t : List Call)
    (h : noLeadInsert t) :
    insertsPaired (Call.storageUpload b p ct :: t) = insertsPaired t := by
  cases t with
  | nil => rfl
  | cons c t' =>
    cases c with
    | httpGet u => rfl
    | storageUpload b2 p2 ct2 => rfl
    | catalogInsert tb r => exact absurd h (by simp [noLeadInsert])

/-- The pairing invariant at an upload-insert pair. -/
theorem insertsPaired_pair (b p ct tb : String) (r : DocRecord)
    (t : List Call) :
    insertsPaired (Call.storageUpload b p ct :: Call.catalogInsert tb r :: t) =
      ((r.storage_path = p : Bool) && insertsPaired t) := rfl

/-- The per-row metadata dict is always truthy: it carries the url key. -/
theorem metaTruthy_rowMetadata (nameCol authorCol dateCol typeCol : Option String)
    (cols : List String) (parseDate : String → Option String) (row : SheetRow)
    (url : String) :
    metaTruthy (rowMetadata nameCol authorCol dateCol typeCol cols parseDate
      row url) = true := by
  simp [metaTruthy, rowMetadata]

/-- The trace of a finished run: empty when the column check failed, the
loop trace otherwise. -/
theorem main_run_snd (args : Args) (frame : Frame) (worlds : List RowWorld)
    (parseDate : String → Option String) (uuids : Nat → String) :
    (main_run args frame worlds parseDate uuids).2 =
      (if frame.columns.contains args.column then
        exTrace (processRows args.column args.name_column args.author_column
          args.date_column args.type_column frame.columns parseDate uuids
          (frame.rows.zip worlds) 0 0 0)
      else []) := by
  unfold main_run
  by_cases hc : frame.columns.contains args.column = true
  · rw [if_pos hc, if_pos hc]
    cases h : processRows args.column args.name_column args.author_column
        args.date_column args.type_column frame.columns parseDate uuids
        (frame.rows.zip worlds) 0 0 0 with
    | error t => rfl
    | ok sft =>
      obtain ⟨a, b, t⟩ := sft
      rfl
  · rw [if_neg hc, if_neg hc]

/-- Step equation: a downloadable row with a nonblank string link performs
its GET, then the upload sequence with the next uuid, then continues with
counters advanced by the upload outcome. -/
theorem processRows_cons_upload (linkCol : String)
    (nameCol authorCol dateCol typeCol : Option String) (cols : List String)
    (parseDate : String → Option String) (uuids : Nat → String)
    (row : SheetRow) (w : RowWorld) (rest : List (SheetRow × RowWorld))
    (k s f : Nat) (u fn : String)
    (hl : row.lookup linkCol = some (CellValue.str u))
    (hb : pyBlank u = false) (hd : w.dlResult = some fn) :
    processRows linkCol nameCol authorCol dateCol typeCol cols parseDate uuids
        ((row, w) :: rest) k s f =
      exWithCalls (Call.httpGet (String.mk (resolveUrl u.toList)) ::
          (upload_to_supabase fn
            (some (rowMetadata nameCol authorCol dateCol typeCol cols
              parseDate row u))
            (UploadWorld.mk (uuids k) w.fileSize w.mimeGuess w.now
              w.storageResp w.insertResp)).2)
        (processRows linkCol nameCol authorCol dateCol typeCol cols parseDate
          uuids rest (k + 1)
          (if (upload_to_supabase fn
              (some (rowMetadata nameCol authorCol dateCol typeCol cols
                parseDate row u))
              (UploadWorld.mk (uuids k) w.fileSize w.mimeGuess w.now
                w.storageResp w.insertResp)).1.isSome then s + 1 else s)
          (if (upload_to_supabase fn
              (some (rowMetadata nameCol authorCol dateCol typeCol cols
                parseDate row u))
              (UploadWorld.mk (uuids k) w.fileSize w.mimeGuess w.now
                w.storageResp w.insertResp)).1.isSome then f else f + 1)) := by
  simp only [processRows, hl, hb, download_file, hd]
  cases hres : (upload_to_supabase fn
      (some (rowMetadata nameCol authorCol dateCol typeCol cols parseDate
        row u))
      (UploadWorld.mk (uuids k) w.fileSize w.mimeGuess w.now w.storageResp
        w.insertResp)).1 with
  | some d => simp [hres]
  | none => simp [hres]

/-- Step equation: a row whose download fails makes only its GET and
continues with the failure counter advanced. -/
theorem processRows_cons_dlfail (linkCol : String)
    (nameCol authorCol dateCol typeCol : Option String) (cols : List String)
    (parseDate : String → Option String) (uuids : Nat → String)
    (row : SheetRow) (w : RowWorld) (rest : List (SheetRow × RowWorld))
    (k s f : Nat) (u : String)
    (hl : row.lookup linkCol = some (CellValue.str u))
    (hb : pyBlank u = false) (hd : w.dlResult = none) :
    processRows linkCol nameCol authorCol dateCol typeCol cols parseDate uuids
        ((row, w) :: rest) k s f =
      exWithCalls [Call.httpGet (String.mk (resolveUrl u.toList))]
        (processRows linkCol nameCol authorCol dateCol typeCol cols parseDate
          uuids rest k s (f + 1)) := by
  simp only [processRows, hl, hb, download_file, hd]
  simp

/-- The loop-trace invariant: inserted ids are drawn with strictly
increasing indices from the uuid stream starting at the current counter;
every inserted record stores id/filename as its storage path and the raw
link text of its row as nested source url; every insert sits immediately
after its storage upload; and a loop trace never begins with an insert. -/
theorem processRows_trace_spec (linkCol : String)
    (nameCol authorCol dateCol typeCol : Option String) (cols : List String)
    (parseDate : String → Option String) (uuids : Nat → String)
    (rl : List (SheetRow × RowWorld)) :
    ∀ k s f : Nat,
      ∃ js : List Nat,
        ((insertedRecords (exTrace (processRows linkCol nameCol authorCol
            dateCol typeCol cols parseDate uuids rl k s f))).map DocRecord.id =
          js.map uuids) ∧
        js.Pairwise (· < ·) ∧
        (∀ j ∈ js, k ≤ j) ∧
        (∀ r ∈ insertedRecords (exTrace (processRows linkCol nameCol authorCol
            dateCol typeCol cols parseDate uuids rl k s f)),
          r.storage_path = r.id ++ "/" ++ r.filename ∧
          ∃ rw ∈ rl, ∃ u : String,
            rw.1.lookup linkCol = some (CellValue.str u) ∧
            r.metadata.source_url = some u) ∧
        insertsPaired (exTrace (processRows linkCol nameCol authorCol dateCol
          typeCol cols parseDate uuids rl k s f)) = true ∧
        noLeadInsert (exTrace (processRows linkCol nameCol authorCol dateCol
          typeCol cols parseDate uuids rl k s f)) := by
  induction rl with
  | nil =>
    intro k s f
    exact ⟨[], rfl, List.Pairwise.nil, by simp,
          fun r hr => absurd hr (List.not_mem_nil r), rfl, trivial⟩
  | cons rw0 rest ih =>
    intro k s f
    obtain ⟨row, w⟩ := rw0
    cases hl : row.lookup linkCol with
    | none =>
      have hstep : processRows linkCol nameCol authorCol dateCol typeCol cols
          parseDate uuids ((row, w) :: rest) k s f = Except.error [] := by
        simp [processRows, hl]
      rw [hstep]
      exact ⟨[], rfl, List.Pairwise.nil, by simp,
          fun r hr => absurd hr (List.not_mem_nil r), rfl, trivial⟩
    | some cell =>
      cases cell with
      | na =>
        have hstep : processRows linkCol nameCol authorCol dateCol typeCol
            cols parseDate uuids ((row, w) :: rest) k s f =
              processRows linkCol nameCol authorCol dateCol typeCol cols
                parseDate uuids rest k s f := by
          simp [processRows, hl]
        rw [hstep]
        obtain ⟨js, h1, h2, h3, h4, h5, h6⟩ := ih k s f
        refine ⟨js, h1, h2, h3, ?_, h5, h6⟩
        intro r hr
        obtain ⟨hpath, rw1, hmem, u2, hu2, hsrc⟩ := h4 r hr
        exact ⟨hpath, rw1, List.mem_cons_of_mem _ hmem, u2, hu2, hsrc⟩
      | num n =>
        have hstep : processRows linkCol nameCol authorCol dateCol typeCol
            cols parseDate uuids ((row, w) :: rest) k s f =
              Except.error [] := by
          simp [processRows, hl]
        rw [hstep]
        exact ⟨[], rfl, List.Pairwise.nil, by simp,
          fun r hr => absurd hr (List.not_mem_nil r), rfl, trivial⟩
      | date d =>
        have hstep : processRows linkCol nameCol authorCol dateCol typeCol
            cols parseDate uuids ((row, w) :: rest) k s f =
              Except.error [] := by
          simp [processRows, hl]
        rw [hstep]
        exact ⟨[], rfl, List.Pairwise.nil, by simp,
          fun r hr => absurd hr (List.not_mem_nil r), rfl, trivial⟩
      | str u =>
        by_cases hb : pyBlank u = true
        · have hstep : processRows linkCol nameCol authorCol dateCol typeCol
              cols parseDate uuids ((row, w) :: rest) k s f =
                processRows linkCol nameCol authorCol dateCol typeCol cols
                  parseDate uuids rest k s f := by
            simp [processRows, hl, hb]
          rw [hstep]
          obtain ⟨js, h1, h2, h3, h4, h5, h6⟩ := ih k s f
          refine ⟨js, h1, h2, h3, ?_, h5, h6⟩
          intro r hr
          obtain ⟨hpath, rw1, hmem, u2, hu2, hsrc⟩ := h4 r hr
          exact ⟨hpath, rw1, List.mem_cons_of_mem _ hmem, u2, hu2, hsrc⟩
        · have hb' : pyBlank u = false := by
            simpa using hb
          cases hd : w.dlResult with
          | none =>
            rw [processRows_cons_dlfail linkCol nameCol authorCol dateCol
              typeCol cols parseDate uuids row w rest k s f u hl hb' hd]
            rw [exTrace_exWithCalls]
            simp only [List.singleton_append]
            obtain ⟨js, h1, h2, h3, h4, h5, h6⟩ := ih k s (f + 1)
            refine ⟨js, ?_, h2, h3, ?_, ?_, ?_⟩
            · rw [insertedRecords_httpGet]
              exact h1
            · intro r hr
              rw [insertedRecords_httpGet] at hr
              obtain ⟨hpath, rw1, hmem, u2, hu2, hsrc⟩ := h4 r hr
              exact ⟨hpath, rw1, List.mem_cons_of_mem _ hmem, u2, hu2, hsrc⟩
            · rw [insertsPaired_httpGet]
              exact h5
            · trivial
          | some fn =>
            rw [processRows_cons_upload linkCol nameCol authorCol dateCol
              typeCol cols parseDate uuids row w rest k s f u fn hl hb' hd]
            set md := rowMetadata nameCol authorCol dateCol typeCol cols
              parseDate row u with hmd
            set uw : UploadWorld := UploadWorld.mk (uuids k) w.fileSize
              w.mimeGuess w.now w.storageResp w.insertResp with huw
            by_cases hs : storageFailed (supabase_upload_file documentsBucket
                (uw.documentId ++ "/" ++ fn) (uw.mimeGuess.getD octetStream)
                uw.storageResp).2 = true
            · have hup : upload_to_supabase fn (some md) uw =
                  (none, [Call.storageUpload documentsBucket
                    (uw.documentId ++ "/" ++ fn)
                    (uw.mimeGuess.getD octetStream)]) := by
                rw [upload_to_supabase_eq, if_pos hs]
              have hup1 : (upload_to_supabase fn (some md) uw).1 = none := by
                rw [hup]
              have hup2 : (upload_to_supabase fn (some md) uw).2 =
                  [Call.storageUpload documentsBucket
                    (uw.documentId ++ "/" ++ fn)
                    (uw.mimeGuess.getD octetStream)] := by
                rw [hup]
              rw [hup1, hup2]
              simp only [Option.isSome_none, Bool.false_eq_true, if_false]
              rw [exTrace_exWithCalls]
              simp only [List.cons_append, List.singleton_append,
                List.nil_append]
              obtain ⟨js, h1, h2, h3, h4, h5, h6⟩ := ih (k + 1) s (f + 1)
              refine ⟨js, ?_, h2, ?_, ?_, ?_, ?_⟩
              · rw [insertedRecords_httpGet, insertedRecords_upload]
                exact h1
              · intro j hj
                exact Nat.le_of_succ_le (h3 j hj)
              · intro r hr
                rw [insertedRecords_httpGet, insertedRecords_upload] at hr
                obtain ⟨hpath, rw1, hmem, u2, hu2, hsrc⟩ := h4 r hr
                exact ⟨hpath, rw1, List.mem_cons_of_mem _ hmem, u2, hu2, hsrc⟩
              · rw [insertsPaired_httpGet,
                  insertsPaired_upload_noInsert _ _ _ _ h6]
                exact h5
              · trivial
            · have key : ∀ s2 f2 : Nat,
                  ∃ js : List Nat,
                    ((insertedRecords (Call.httpGet
                        (String.mk (resolveUrl u.toList)) ::
                        Call.storageUpload documentsBucket
                          (uw.documentId ++ "/" ++ fn)
                          (uw.mimeGuess.getD octetStream) ::
                        Call.catalogInsert documentsTable
                          (mkDocRecord fn (some md) uw) ::
                        exTrace (processRows linkCol nameCol authorCol dateCol
                          typeCol cols parseDate uuids rest (k + 1) s2
                          f2))).map DocRecord.id = js.map uuids) ∧
                    js.Pairwise (· < ·) ∧
                    (∀ j ∈ js, k ≤ j) ∧
                    (∀ r ∈ insertedRecords (Call.httpGet
                        (String.mk (resolveUrl u.toList)) ::
                        Call.storageUpload documentsBucket
                          (uw.documentId ++ "/" ++ fn)
                          (uw.mimeGuess.getD octetStream) ::
                        Call.catalogInsert documentsTable
                          (mkDocRecord fn (some md) uw) ::
                        exTrace (processRows linkCol nameCol authorCol dateCol
                          typeCol cols parseDate uuids rest (k + 1) s2 f2)),
                      r.storage_path = r.id ++ "/" ++ r.filename ∧
                      ∃ rw ∈ (row, w) :: rest, ∃ u2 : String,
                        rw.1.lookup linkCol = some (CellValue.str u2) ∧
                        r.metadata.source_url = some u2) ∧
                    insertsPaired (Call.httpGet
                      (String.mk (resolveUrl u.toList)) ::
                      Call.storageUpload documentsBucket
                        (uw.documentId ++ "/" ++ fn)
                        (uw.mimeGuess.getD octetStream) ::
                      Call.catalogInsert documentsTable
                        (mkDocRecord fn (some md) uw) ::
                      exTrace (processRows linkCol nameCol authorCol dateCol
                        typeCol cols parseDate uuids rest (k + 1) s2 f2)) =
                      true ∧
                    noLeadInsert (Call.httpGet
                      (String.mk (resolveUrl u.toList)) ::
                      Call.storageUpload documentsBucket
                        (uw.documentId ++ "/" ++ fn)
                        (uw.mimeGuess.getD octetStream) ::
                      Call.catalogInsert documentsTable
                        (mkDocRecord fn (some md) uw) ::
                      exTrace (processRows linkCol nameCol authorCol dateCol
                        typeCol cols parseDate uuids rest (k + 1) s2 f2)) := by
                intro s2 f2
                obtain ⟨js, h1, h2, h3, h4, h5, h6⟩ := ih (k + 1) s2 f2
                refine ⟨k :: js, ?_, ?_, ?_, ?_, ?_, ?_⟩
                · rw [insertedRecords_httpGet, insertedRecords_upload,
                    insertedRecords_insert]
                  simp only [List.map_cons, h1]
                  rfl
                · refine List.Pairwise.cons ?_ h2
                  intro j hj
                  exact Nat.lt_of_lt_of_le (Nat.lt_succ_self k) (h3 j hj)
                · intro j hj
                  rcases List.mem_cons.mp hj with rfl | hj2
                  · exact Nat.le_refl _
                  · exact Nat.le_of_succ_le (h3 j hj2)
                · intro r hr
                  rw [insertedRecords_httpGet, insertedRecords_upload,
                    insertedRecords_insert] at hr
                  rcases List.mem_cons.mp hr with rfl | hr2
                  · refine ⟨rfl, (row, w), List.mem_cons_self _ _, u, hl, ?_⟩
                    show (mkDocRecord fn (some md) uw).metadata.source_url =
                      some u
                    have hmt : metaTruthy md = true := by
                      rw [hmd]
                      exact metaTruthy_rowMetadata nameCol authorCol dateCol
                        typeCol cols parseDate row u
                    have hurl : md.url = some u := by
                      rw [hmd]
                      rfl
                    simp [mkDocRecord, buildDocMetadata, hmt, hurl]
                  · obtain ⟨hpath, rw1, hmem, u2, hu2, hsrc⟩ := h4 r hr2
                    exact ⟨hpath, rw1, List.mem_cons_of_mem _ hmem, u2, hu2,
                      hsrc⟩
                · rw [insertsPaired_httpGet, insertsPaired_pair]
                  simp only [h5, Bool.and_true]
                  simp [mkDocRecord]
                · trivial
              by_cases hi : insertFailed (supabase_insert_record
                  documentsTable (mkDocRecord fn (some md) uw)
                  uw.insertResp).2 = true
              · have hup : upload_to_supabase fn (some md) uw =
                    (none, [Call.storageUpload documentsBucket
                        (uw.documentId ++ "/" ++ fn)
                        (uw.mimeGuess.getD octetStream),
                      Call.catalogInsert documentsTable
                        (mkDocRecord fn (some md) uw)]) := by
                  rw [upload_to_supabase_eq, if_neg hs, if_pos hi]
                have hup1 : (upload_to_supabase fn (some md) uw).1 = none := by
                  rw [hup]
                have hup2 : (upload_to_supabase fn (some md) uw).2 =
                    [Call.storageUpload documentsBucket
                        (uw.documentId ++ "/" ++ fn)
                        (uw.mimeGuess.getD octetStream),
                      Call.catalogInsert documentsTable
                        (mkDocRecord fn (some md) uw)] := by
                  rw [hup]
                rw [hup1, hup2]
                simp only [Option.isSome_none, Bool.false_eq_true, if_false]
                rw [exTrace_exWithCalls]
                simp only [List.cons_append, List.nil_append]
                exact key s (f + 1)
              · have hup : upload_to_supabase fn (some md) uw =
                    (some uw.documentId,
                      [Call.storageUpload documentsBucket
                        (uw.documentId ++ "/" ++ fn)
                        (uw.mimeGuess.getD octetStream),
                      Call.catalogInsert documentsTable
                        (mkDocRecord fn (some md) uw)]) := by
                  rw [upload_to_supabase_eq, if_neg hs, if_neg hi]
                have hup1 : (upload_to_supabase fn (some md) uw).1 =
                    some uw.documentId := by
                  rw [hup]
                have hup2 : (upload_to_supabase fn (some md) uw).2 =
                    [Call.storageUpload documentsBucket
                        (uw.documentId ++ "/" ++ fn)
                        (uw.mimeGuess.getD octetStream),
                      Call.catalogInsert documentsTable
                        (mkDocRecord fn (some md) uw)] := by
                  rw [hup]
                rw [hup1, hup2]
                simp only [Option.isSome_some, if_true]
                rw [exTrace_exWithCalls]
                simp only [List.cons_append, List.nil_append]
                exact key (s + 1) f

/-- The witness uuid stream is injective. -/
theorem uuidsW_inj (i j : Nat) (h : uuidsW i = uuidsW j) : i = j := by
  have h2 := congrArg (fun s : String => s.data.length) h
  simpa [uuidsW] using h2

/-- C3: under the model of uuid4 as a stream of pairwise-distinct values,
a run inserts records with pairwise-distinct identifiers, every inserted
record's storage path is exactly id/filename, and every catalog insert sits
immediately after the storage upload that used that same path — the id is
generated before the upload and shared between the storage key and the
record. -/
theorem c3_ids_unique_and_paths (args : Args) (frame : Frame)
    (worlds : List RowWorld) (parseDate : String → Option String)
    (uuids : Nat → String)
    (hinj : ∀ i j : Nat, uuids i = uuids j → i = j) :
    ((insertedRecords (main_run args frame worlds parseDate uuids).2).map
        DocRecord.id).Nodup ∧
    (∀ r ∈ insertedRecords (main_run args frame worlds parseDate uuids).2,
      r.storage_path = r.id ++ "/" ++ r.filename) ∧
    insertsPaired (main_run args frame worlds parseDate uuids).2 = true := by
  rw [main_run_snd]
  by_cases hc : frame.columns.contains args.column = true
  · rw [if_pos hc]
    obtain ⟨js, h1, h2, _, h4, h5, _⟩ := processRows_trace_spec args.column
      args.name_column args.author_column args.date_column args.type_column
      frame.columns parseDate uuids (frame.rows.zip worlds) 0 0 0
    refine ⟨?_, fun r hr => (h4 r hr).1, h5⟩
    rw [h1]
    exact List.Pairwise.map uuids
      (fun a b hab he => absurd (hinj a b he) (Nat.ne_of_lt hab)) h2
  · rw [if_neg hc]
    refine ⟨?_, ?_, rfl⟩
    · exact List.nodup_nil
    · intro r hr
      exact absurd hr (List.not_mem_nil r)

/-- Witness for C3 at a concrete two-row run with an injective uuid
stream. -/
theorem c3_witness :
    (∀ i j : Nat, uuidsW i = uuidsW j → i = j) ∧
    (((insertedRecords (main_run argsW frameW3 [rwOK, rwOK] parseDateW
        uuidsW).2).map DocRecord.id).Nodup ∧
      (∀ r ∈ insertedRecords (main_run argsW frameW3 [rwOK, rwOK] parseDateW
          uuidsW).2, r.storage_path = r.id ++ "/" ++ r.filename) ∧
      insertsPaired (main_run argsW frameW3 [rwOK, rwOK] parseDateW
        uuidsW).2 = true) :=
  ⟨uuidsW_inj,
    c3_ids_unique_and_paths argsW frameW3 [rwOK, rwOK] parseDateW uuidsW
      uuidsW_inj⟩

/-- C10: every record a run inserts carries, as the source url nested in
its metadata copy, exactly the raw link text of its spreadsheet row — not
the rewritten direct-download URL, whose rewrite stays local to the
Fetcher. -/
theorem c10_source_url_raw (args : Args) (frame : Frame)
    (worlds : List RowWorld) (parseDate : String → Option String)
    (uuids : Nat → String) :
    ∀ rec ∈ insertedRecords (main_run args frame worlds parseDate uuids).2,
      ∃ rw ∈ frame.rows.zip worlds, ∃ u : String,
        rw.1.lookup args.column = some (CellValue.str u) ∧
        rec.metadata.source_url = some u := by
  rw [main_run_snd]
  by_cases hc : frame.columns.contains args.column = true
  · rw [if_pos hc]
    obtain ⟨js, _, _, _, h4, _, _⟩ := processRows_trace_spec args.column
      args.name_column args.author_column args.date_column args.type_column
      frame.columns parseDate uuids (frame.rows.zip worlds) 0 0 0
    exact fun rec hr => (h4 rec hr).2
  · rw [if_neg hc]
    intro rec hr
    exact absurd hr (List.not_mem_nil rec)

/-- Witness for C10 at a concrete run over a sharing link the resolver
rewrites: the stored source url is the raw cell text even though the GET
used the rewritten URL. -/
theorem c10_witness :
    (recW ∈ insertedRecords (main_run argsW frameW2 [rwOK] parseDateW
        uuidsW).2) ∧
    String.mk (resolveUrl (rawW.toList)) ≠ rawW ∧
    (∃ rw ∈ frameW2.rows.zip [rwOK], ∃ u : String,
      rw.1.lookup argsW.column = some (CellValue.str u) ∧
      recW.metadata.source_url = some u) :=
  ⟨by decide, by decide,
    c10_source_url_raw argsW frameW2 [rwOK] parseDateW uuidsW recW
      (by decide)⟩
